import Mathlib

/-!
A shallow embedding of `bot.py` from the `telegram_freestorage_poc`
repository, together with theorems settling the claims about its
delivery pipeline: global content-hash dedup, archive construction,
size-bounded splitting, flood-control retry, error-notice tracking,
history persistence and sequence-id assignment.

Python dictionaries are embedded as association lists (`List (String × _)`)
with insertion-order preserving update; byte strings are `List Nat`;
the Telegram transport is abstracted by the list of responses it gives to
successive attempts (`SendResult`), and by a per-part boolean outcome at
the `process_file` level (the boolean that `send_file` returns).
-/

set_option autoImplicit false
set_option maxRecDepth 8000

namespace Bot

/-- `s.lower()` on a Python string. -/
def strLower (s : String) : String := String.mk (s.data.map Char.toLower)

/-- `s.endswith(suffix)` on a Python string. -/
def strEndsWith (s suffix : String) : Bool :=
  List.isSuffixOf suffix.data s.data

/-- `os.path.basename`: the part of the path after the last slash
(computed by a left fold that restarts at every `'/'`). -/
def basename (p : String) : String :=
  String.mk (p.data.foldl (fun acc c => if c = '/' then [] else acc ++ [c]) [])

/-- Python dict lookup `d[k]` / `d.get(k)` on an association list. -/
def dictGet {α : Type} (k : String) : List (String × α) → Option α
  | [] => none
  | (k', v) :: rest => if k' = k then some v else dictGet k rest

/-- Python dict assignment `d[k] = v`: replaces the value in place if the
key exists, otherwise appends the new binding (insertion order). -/
def dictSet {α : Type} (k : String) (v : α) : List (String × α) → List (String × α)
  | [] => [(k, v)]
  | (k', v') :: rest => if k' = k then (k, v) :: rest else (k', v') :: dictSet k v rest

/-- Python `del d[k]`: removes the binding for `k` (keys are unique, so
removing the first occurrence suffices). -/
def dictErase {α : Type} (k : String) : List (String × α) → List (String × α)
  | [] => []
  | (k', v') :: rest => if k' = k then rest else (k', v') :: dictErase k rest

/-- Python `k in d`. -/
def dictHasKey {α : Type} (k : String) (d : List (String × α)) : Bool :=
  (dictGet k d).isSome

/-- The configuration surface read from `config/config.ini` plus the
hard-coded `MAX_FILE_SIZE` constant (kept as a field so that theorems can
quantify over the part size, as the spec's Splitter contract does). -/
structure Config where
  enableEncryption : Bool
  compressionLevel : String
  allowedExtensions : List String
  maxFileSize : Nat
  enableForward : Bool
  forwardChatId : Int
deriving Repr, DecidableEq

/-- `MAX_FILE_SIZE = 45 * 1024 * 1024` (bot.py line 39). -/
def MAX_FILE_SIZE : Nat := 45 * 1024 * 1024

/-- Module-level configuration validation (bot.py lines 51-52):
raises `ValueError` when encryption is enabled with compression `none`. -/
def validateConfig (cfg : Config) : Except String Unit :=
  if cfg.enableEncryption && cfg.compressionLevel == "none" then
    Except.error "Error: Encryption cannot be enabled when compression is set to none."
  else
    Except.ok ()

/-! ## The transport and `send_file` (bot.py lines 111-145) -/

/-- The outcome of one `bot.send_document` attempt: success, a 429
flood-control response with its `Retry-After` header (absent header
defaults to 1 second), or any other `TelegramError`. -/
inductive SendResult where
  | success
  | floodControl (retryAfter : Option Nat)
  | terminalError
deriving Repr, DecidableEq

/-- The mutable sender state: the `error_messages` dict mapping a file
path to the message id of its outstanding error notice, plus a counter
supplying fresh Telegram message ids for newly sent notices. -/
structure SenderState where
  errorMessages : List (String × Nat)
  nextMessageId : Nat
deriving Repr, DecidableEq

/-- Observable events of one `send_file` call. -/
inductive SendEvent where
  | documentSent (path caption : String)
  | forwarded
  | noticeDeleted (messageId : Nat)
  | errorNotice (path : String) (messageId : Nat)
  | sleep (duration : Nat)
deriving Repr, DecidableEq

/-- The caption suffix `f"\n\\(Part {part_number}/{total_parts}\\)"`
appended when `send_file` is given part numbers (bot.py line 117). -/
def partSuffix (part_number total_parts : Nat) : String :=
  "\n\\(Part " ++ toString part_number ++ "/" ++ toString total_parts ++ "\\)"

/-- The full escaped caption built by `send_file` (bot.py lines 115-117);
`esc` stands for `telegram.helpers.escape_markdown(·, version=2)`. -/
def fullCaption (esc : String → String) (caption : String)
    (part : Option (Nat × Nat)) : String :=
  match part with
  | some (pn, tp) => esc caption ++ partSuffix pn tp
  | none => esc caption

/-- `send_file` (bot.py lines 111-145), driven by the list of transport
responses to its successive `send_document` attempts.  On success the
document goes out, an optional forward happens, and any tracked error
notice for this path is deleted and untracked; on a 429 the sender sleeps
for the signaled duration and retries the same send from scratch; on any
other `TelegramError` an error notice is sent and tracked under the path.
Returns `none` when the response list is exhausted mid-retry. -/
def sendFile (esc : String → String) (enableForward : Bool)
    (file_path caption : String) (part : Option (Nat × Nat))
    (st : SenderState) :
    List SendResult → Option (Bool × SenderState × List SendEvent)
  | [] => none
  | SendResult.success :: _ =>
    let sent := [SendEvent.documentSent file_path (fullCaption esc caption part)]
    let sent := if enableForward then sent ++ [SendEvent.forwarded] else sent
    match dictGet file_path st.errorMessages with
    | some mid =>
      some (true,
        { st with errorMessages := dictErase file_path st.errorMessages },
        sent ++ [SendEvent.noticeDeleted mid])
    | none => some (true, st, sent)
  | SendResult.floodControl retryAfter :: rest =>
    let d := retryAfter.getD 1
    (sendFile esc enableForward file_path caption part st rest).map
      (fun r => (r.1, r.2.1, SendEvent.sleep d :: r.2.2))
  | SendResult.terminalError :: _ =>
    some (false,
      { errorMessages := dictSet file_path st.nextMessageId st.errorMessages,
        nextMessageId := st.nextMessageId + 1 },
      [SendEvent.errorNotice file_path st.nextMessageId])

/-! ## The splitter (bot.py lines 162-246) -/

/-- Python `f"{n:03d}"`: decimal, zero-padded to at least 3 digits. -/
def pad3 (n : Nat) : String :=
  let s := toString n
  String.mk (List.replicate (3 - s.length) '0') ++ s

/-- A part's file name `f'{base_name}.{file_number:03d}'` (bot.py line 182). -/
def chunkName (base_name : String) (file_number : Nat) : String :=
  base_name ++ "." ++ pad3 file_number

/-- Fuel-indexed body of the `zip_file.read(chunk_size)` loop: while bytes
remain (and fuel lasts), cut off the next `chunkSize` bytes.  The fuel
only bounds the number of iterations (each iteration with a non-zero
chunk size consumes at least one byte, so fuel equal to the byte count is
always enough); it keeps the recursion structural so that the kernel can
evaluate it. -/
def readChunksFuel (chunkSize : Nat) : Nat → List Nat → List (List Nat)
  | _, [] => []
  | 0, _ :: _ => []
  | fuel + 1, b :: data =>
    if chunkSize = 0 then []
    else
      (b :: data).take chunkSize
        :: readChunksFuel chunkSize fuel ((b :: data).drop chunkSize)

/-- The `zip_file.read(chunk_size)` loop (bot.py lines 176-184): the byte
chunks of the artifact, each of `chunkSize` bytes except a shorter last
one.  `read(0)` returns an empty bytes object, so chunk size zero yields
no chunks, as in Python. -/
def readChunks (chunkSize : Nat) (l : List Nat) : List (List Nat) :=
  readChunksFuel chunkSize l.length l

/-- `total_parts = size // chunk_size + (1 if size % chunk_size else 0)`
(bot.py line 174). -/
def totalPartsOf (size chunkSize : Nat) : Nat :=
  size / chunkSize + (if size % chunkSize ≠ 0 then 1 else 0)

/-- The glob `f"{base_name}.zip.*"` that the reassembly instructions tell
the user to concatenate (bot.py lines 234 and 237). -/
def reassemblyGlob (base_name : String) : String :=
  base_name ++ ".zip.*"

/-- Whether a glob pattern consisting of a literal followed by a single
trailing `*` matches a candidate file name. -/
def globStarMatches (pat name : String) : Bool :=
  if strEndsWith pat "*" then
    List.isPrefixOf (pat.data.dropLast) name.data
  else
    pat == name

/-- The instructions text of `send_reassembly_instructions` (bot.py lines
228-241), built with the artifact's base name and the post-loop
`file_number` (one past the last part sent). -/
def reassemblyInstructions (enableEncryption : Bool) (base_name : String)
    (file_number : Nat) : String :=
  let encryption_note :=
    if enableEncryption then
      "The ZIP file is encrypted. You\x27ll need the password to extract it."
    else
      "The ZIP file is not encrypted."
  "```\nTo reassemble the file:\n1. Download all parts (" ++ toString (file_number - 1)
    ++ " in total)\n2. Use one of the following commands:\n   # Windows\n   copy /b "
    ++ reassemblyGlob base_name ++ " " ++ base_name
    ++ ".zip\n\n   # Linux/Mac\n   cat " ++ reassemblyGlob base_name ++ " > " ++ base_name
    ++ ".zip\n3. Extract " ++ base_name ++ ".zip\n\n" ++ encryption_note ++ "\n```"

/-- Observable actions of `process_file` / `split_and_send_zip`.
`sendAttempt` records one call to `send_file` (the attempt is made whether
or not the send succeeds); `reassemblySent` records one instructions
message; `savedHistory` records `save_data(file_history, ...)`;
`backendEvent` records `send_event_to_backend` with the `file_counter`
value passed as `file_id`. -/
inductive Action where
  | archiveBuilt (zipPath : String)
  | sendAttempt (path : String) (partNumber totalParts : Option Nat)
  | reassemblySent (text : String)
  | savedHistory
  | backendEvent (eventType : String) (fileId : Nat)
deriving Repr, DecidableEq

/-- `create_zip_archive` (bot.py lines 208-224).  When it compresses, the
archive bytes are not computable from the source bytes in this embedding,
so they are supplied as the `archivedBytes` parameter; on the passthrough
branch the function returns the input path and its bytes unchanged. -/
def createZipArchive (cfg : Config) (file_path base_name temp_dir : String)
    (skip_zip : Bool) (content archivedBytes : List Nat) : String × List Nat :=
  if !skip_zip && cfg.compressionLevel != "none"
      && !(strEndsWith (strLower file_path) ".zip") then
    (temp_dir ++ "/" ++ base_name ++ ".zip", archivedBytes)
  else
    (file_path, content)

/-- The chunk loop of `split_and_send_zip` (bot.py lines 176-194):
sends each chunk through `send_file`, whose boolean outcome for part `i`
is `sendRes i`, stops at the first failure, and counts the
`file_counter += 1` increments performed after each successful part.
Returns (all parts succeeded, counter increments, send attempts). -/
def splitLoop (base_name temp_dir : String) (total_parts : Nat)
    (sendRes : Nat → Bool) :
    List (List Nat) → Nat → Bool × Nat × List Action
  | [], _ => (true, 0, [])
  | _chunk :: rest, file_number =>
    let act := Action.sendAttempt (temp_dir ++ "/" ++ chunkName base_name file_number)
      (some file_number) (some total_parts)
    if sendRes file_number then
      let r := splitLoop base_name temp_dir total_parts sendRes rest (file_number + 1)
      (r.1, r.2.1 + 1, act :: r.2.2)
    else
      (false, 0, [act])

/-- The reassembly-instructions sends of `send_reassembly_instructions`
(bot.py lines 242-246): one message to the main chat, and a copy to the
forward chat when both `FORWARD_CHAT_ID` and `ENABLE_FORWARD` are set. -/
def reassemblyActions (cfg : Config) (base_name : String) (file_number : Nat) :
    List Action :=
  let text := reassemblyInstructions cfg.enableEncryption base_name file_number
  [Action.reassemblySent text]
    ++ (if cfg.forwardChatId != 0 && cfg.enableForward then [Action.reassemblySent text]
        else [])

/-- `split_and_send_zip` (bot.py lines 162-206).  `content` is the bytes
at `file_path`; `archivedBytes` is what `create_zip_archive` would
produce if it compressed (unused on every call reachable from
`process_file`).  Returns (success, reported size, `file_counter`
increments, actions); the reported size on success is
`os.path.getsize(file_path)` taken before archiving, and 0 on failure. -/
def splitAndSendZip (cfg : Config) (file_path temp_dir : String)
    (skip_zip : Bool) (content archivedBytes : List Nat)
    (sendRes : Nat → Bool) : Bool × Nat × Nat × List Action :=
  let base_name := basename file_path
  let original_size := content.length
  let ar := createZipArchive cfg file_path base_name temp_dir skip_zip content archivedBytes
  let artifact := ar.2
  let chunk_size := cfg.maxFileSize
  let total_parts := totalPartsOf artifact.length chunk_size
  let chunks := readChunks chunk_size artifact
  let r := splitLoop base_name temp_dir total_parts sendRes chunks 1
  if r.1 then
    (true, original_size, r.2.1,
      r.2.2 ++ reassemblyActions cfg base_name (chunks.length + 1))
  else
    (false, 0, r.2.1, r.2.2)

/-! ## History records and `process_file` (bot.py lines 273-344) -/

/-- One entry of `file_history` (bot.py lines 327-338). -/
structure FileRecord where
  hash : String
  last_sent : String
  send_success : Bool
  encrypted : Bool
  encryption_algorithm : String
  file_id : Nat
  file_size : Nat
  processed_size : Nat
  processing_time : Nat
  upload_speed : Nat
deriving Repr, DecidableEq

/-- The global mutable state touched by `process_file`: the in-memory
`file_history` dict and the `file_counter`. -/
structure BotState where
  file_history : List (String × FileRecord)
  file_counter : Nat
deriving Repr, DecidableEq

/-- The global dedup check (bot.py line 282):
`any(file_data['hash'] == file_hash for file_data in file_history.values())`. -/
def anyHashMatch (hist : List (String × FileRecord)) (file_hash : String) : Bool :=
  hist.any (fun pr => pr.2.hash == file_hash)

/-- The extension filter (bot.py line 286): the file is ignored when
`ALLOWED_EXTENSIONS` is non-empty and no allowed extension is a suffix of
the lower-cased base name. -/
def extensionBlocked (cfg : Config) (base_name : String) : Bool :=
  !cfg.allowedExtensions.isEmpty
    && !(cfg.allowedExtensions.any (fun ext => strEndsWith (strLower base_name) ext))

/-- The secondary per-path check (bot.py line 305):
`file_path not in file_history or file_history[file_path]['hash'] != file_hash`. -/
def secondaryCheck (hist : List (String × FileRecord)) (file_path file_hash : String) :
    Bool :=
  match dictGet file_path hist with
  | none => true
  | some r => r.hash != file_hash

/-- The condition of bot.py line 291 under which `process_file` sends
the source file as is: compression `none`, or an already-zip source with
encryption off. -/
def passthroughCond (cfg : Config) (file_path : String) : Bool :=
  cfg.compressionLevel == "none"
    || (strEndsWith (strLower file_path) ".zip" && !cfg.enableEncryption)

/-- The path `process_file` hands to the sender (bot.py lines 292/294). -/
def sendPathOf (cfg : Config) (file_path temp_dir : String) : String :=
  if passthroughCond cfg file_path then file_path
  else temp_dir ++ "/" ++ basename file_path ++ ".zip"

/-- The bytes at `send_path`: the source bytes on the passthrough branch,
the compressed archive's bytes otherwise. -/
def sendDataOf (cfg : Config) (file_path : String) (content archived : List Nat) :
    List Nat :=
  if passthroughCond cfg file_path then content else archived

/-- The tail of `process_file` after the send has run (bot.py lines
321-344): on success, bump the counter once more, create/overwrite the
history record, persist, and emit a success event; on failure, emit a
failure event and leave the history untouched.  `sr` is the send result
(success flag, reported size, counter increments performed during the
send, send actions). -/
def finishProcess (cfg : Config) (file_path file_hash now : String)
    (processing_time upload_speed original_size : Nat)
    (archiveActs : List Action) (sr : Bool × Nat × Nat × List Action)
    (s : BotState) : BotState × List Action :=
  let success := sr.1
  let file_size := sr.2.1
  let counterInc := sr.2.2.1
  let sendActs := sr.2.2.2
  if success then
    let newCounter := s.file_counter + counterInc + 1
    let record : FileRecord := {
      hash := file_hash
      last_sent := now
      send_success := true
      encrypted := cfg.enableEncryption
      encryption_algorithm := if cfg.enableEncryption then "AES" else "None"
      file_id := newCounter
      file_size := original_size
      processed_size := file_size
      processing_time := processing_time
      upload_speed := upload_speed }
    ({ file_history := dictSet file_path record s.file_history
       file_counter := newCounter },
     archiveActs ++ sendActs
       ++ [Action.savedHistory, Action.backendEvent "success" newCounter])
  else
    ({ s with file_counter := s.file_counter + counterInc },
     archiveActs ++ sendActs
       ++ [Action.backendEvent "failure" (s.file_counter + counterInc)])

/-- The send step of `process_file` (bot.py lines 308-319): split-and-send
when the artifact exceeds `MAX_FILE_SIZE` (passing `skip_zip=True` when
`send_path` ends in `.zip`), a single `send_file` call otherwise.
Returns (success, `file_size` as reported, `file_counter` increments,
send actions). -/
def srOf (cfg : Config) (file_path temp_dir : String)
    (content archived : List Nat) (sendRes : Nat → Bool) :
    Bool × Nat × Nat × List Action :=
  let send_path := sendPathOf cfg file_path temp_dir
  let send_data := sendDataOf cfg file_path content archived
  if send_data.length > cfg.maxFileSize then
    if strEndsWith (strLower send_path) ".zip" then
      splitAndSendZip cfg send_path temp_dir true send_data archived sendRes
    else
      splitAndSendZip cfg send_path temp_dir false send_data archived sendRes
  else
    (sendRes 1, send_data.length, 0,
      [Action.sendAttempt send_path none none])

/-- `process_file` (bot.py lines 273-344).  `content` is the bytes of the
source file (so `content.length` is `os.path.getsize(file_path)`),
`archived` the bytes of the zip that compression would produce, `now`,
`processing_time` and `upload_speed` the wall-clock observations stored
in the record, and `sendRes i` the boolean that `send_file` returns for
part `i` (a single un-split send consults `sendRes 1`).  Returns the new
global state and the list of observable actions. -/
def processFile (cfg : Config) (file_path file_hash : String)
    (temp_dir : String) (content archived : List Nat)
    (now : String) (processing_time upload_speed : Nat)
    (sendRes : Nat → Bool) (s : BotState) : BotState × List Action :=
  let original_size := content.length
  let base_name := basename file_path
  if anyHashMatch s.file_history file_hash then (s, [])
  else if extensionBlocked cfg base_name then (s, [])
  else
    let passthrough := passthroughCond cfg file_path
    let send_path := sendPathOf cfg file_path temp_dir
    let archiveActs := if passthrough then [] else [Action.archiveBuilt send_path]
    if secondaryCheck s.file_history file_path file_hash then
      finishProcess cfg file_path file_hash now processing_time upload_speed
        original_size archiveActs (srOf cfg file_path temp_dir content archived sendRes) s
    else (s, archiveActs)

/-- The `file_counter` initialization at startup (bot.py line 376):
`max(file_history.values(), key=lambda x: x.get('file_id', 0), default={}).get('file_id', 0)`,
i.e. the largest `file_id` in the loaded history, 0 when it is empty. -/
def initFileCounter (hist : List (String × FileRecord)) : Nat :=
  hist.foldl (fun m pr => max m pr.2.file_id) 0

/-! ## The scheduling loop (bot.py lines 389-416) -/

/-- The `for file_path in sorted_files` loop of one cycle (bot.py lines
406-407): `raises f = true` means an unexpected exception escapes
`process_file(f)` (for instance the `IOError` that `calculate_md5`
raises when the file disappeared between sorting and hashing).  Returns
the files whose processing was started this cycle, and the file whose
exception aborted the loop, if any. -/
def forFiles (raises : String → Bool) : List String → List String × Option String
  | [] => ([], none)
  | f :: rest =>
    if raises f then ([f], some f)
    else
      let r := forFiles raises rest
      (f :: r.1, r.2)

/-- One iteration of `while True` (bot.py lines 389-416): the file loop
runs inside `try`, and `except Exception` catches whatever escapes it
(logging and sleeping), so the iteration always ends normally.  Returns
the files attempted during the cycle. -/
def runCycle (raises : String → Bool) (sorted_files : List String) : List String :=
  (forFiles raises sorted_files).1

/-- The scheduling loop over a finite prefix of cycles, each given by its
sorted file list: `except Exception` never breaks out of `while True`, so
every cycle runs. -/
def runLoop (raises : String → Bool) : List (List String) → List (List String)
  | [] => []
  | files :: rest => runCycle raises files :: runLoop raises rest

/-- The program from module load onward: configuration validation happens
at import time (bot.py lines 51-52), before `main` ever scans a folder,
so an invalid configuration yields an error with no cycle run. -/
def botProgram (cfg : Config) (raises : String → Bool)
    (cycles : List (List String)) : Except String (List (List String)) :=
  match validateConfig cfg with
  | Except.error e => Except.error e
  | Except.ok _ => Except.ok (runLoop raises cycles)

/-- Whether `sub` is a prefix of some suffix of `l`. -/
def listContainsSub (sub : List Char) : List Char → Bool
  | [] => List.isPrefixOf sub []
  | c :: rest => List.isPrefixOf sub (c :: rest) || listContainsSub sub rest

/-- Whether a string occurs as a contiguous substring of another. -/
def containsSubstr (s sub : String) : Bool :=
  listContainsSub sub.data s.data

/-- The duration of a backoff-sleep event, `none` for other events. -/
def sleepDuration : SendEvent → Option Nat
  | SendEvent.sleep d => some d
  | _ => none

/-- Whether an action is a `send_file` call. -/
def isSendAttempt : Action → Bool
  | Action.sendAttempt _ _ _ => true
  | _ => false

/-- Whether an action is a reassembly-instructions message. -/
def isReassembly : Action → Bool
  | Action.reassemblySent _ => true
  | _ => false

/-! ## Concrete fixtures (small instantiations used to exercise the model) -/

/-- A small configuration: `default` compression, no encryption, no
forwarding, part size 2 bytes (the part size is scaled down so that
concrete runs stay evaluable; the program fixes it at `MAX_FILE_SIZE`). -/
def sampleCfg : Config :=
  { enableEncryption := false
    compressionLevel := "default"
    allowedExtensions := []
    maxFileSize := 2
    enableForward := false
    forwardChatId := 0 }

/-- The configuration the C6 scenario runs under: `default` compression,
no encryption, the program's 45 MiB part size. -/
def scenarioCfg : Config :=
  { enableEncryption := false
    compressionLevel := "default"
    allowedExtensions := []
    maxFileSize := MAX_FILE_SIZE
    enableForward := false
    forwardChatId := 0 }

/-- An invalid configuration: encryption together with compression
`none`. -/
def encNoneCfg : Config :=
  { enableEncryption := true
    compressionLevel := "none"
    allowedExtensions := []
    maxFileSize := MAX_FILE_SIZE
    enableForward := false
    forwardChatId := 0 }

/-- A history record with hash `"h1"` and sequence id 3. -/
def sampleRecord : FileRecord :=
  { hash := "h1"
    last_sent := "2024-01-01T00:00:00"
    send_success := true
    encrypted := false
    encryption_algorithm := "None"
    file_id := 3
    file_size := 10
    processed_size := 10
    processing_time := 1
    upload_speed := 1 }

/-- A bot state whose history holds `sampleRecord` under path `"a/old"`. -/
def sampleState : BotState :=
  { file_history := [("a/old", sampleRecord)]
    file_counter := 3 }

/-- A sender state with an outstanding error notice (id 7) tracked for
path `"p"`. -/
def sampleSender : SenderState :=
  { errorMessages := [("p", 7)]
    nextMessageId := 8 }

/-! ## Helper lemmas -/

theorem dictGet_dictSet_self {α : Type} (k : String) (v : α) (d : List (String × α)) :
    dictGet k (dictSet k v d) = some v := by
  induction d with
  | nil => simp [dictGet, dictSet]
  | cons pr rest ih =>
    by_cases h : pr.1 = k
    · simp [dictSet, dictGet, h]
    · simpa [dictSet, dictGet, h] using ih

theorem dictGet_mem {α : Type} {k : String} {v : α} {d : List (String × α)}
    (h : dictGet k d = some v) : (k, v) ∈ d := by
  induction d with
  | nil => simp [dictGet] at h
  | cons pr rest ih =>
    obtain ⟨k', v'⟩ := pr
    by_cases hk : k' = k
    · subst hk
      simp only [dictGet, if_true, eq_self_iff_true, if_pos, Option.some.injEq] at h
      subst h
      exact List.mem_cons_self _ _
    · simp only [dictGet, hk, if_neg, not_false_iff] at h
      exact List.mem_cons_of_mem _ (ih h)

theorem mem_dictSet {α : Type} {k : String} {v : α} {d : List (String × α)} {pr : String × α}
    (h : pr ∈ dictSet k v d) : pr = (k, v) ∨ pr ∈ d := by
  induction d with
  | nil => simpa [dictSet] using h
  | cons hd rest ih =>
    by_cases hk : hd.1 = k
    · simp only [dictSet, hk, if_pos, List.mem_cons] at h
      rcases h with h | h
      · exact Or.inl h
      · exact Or.inr (List.mem_cons_of_mem _ h)
    · simp only [dictSet, hk, if_neg, not_false_iff, List.mem_cons] at h
      rcases h with h | h
      · exact Or.inr (by simp [h])
      · rcases ih h with h' | h'
        · exact Or.inl h'
        · exact Or.inr (List.mem_cons_of_mem _ h')

theorem dictGet_eq_none_of_not_mem {α : Type} {k : String} {d : List (String × α)}
    (h : k ∉ d.map Prod.fst) : dictGet k d = none := by
  induction d with
  | nil => simp [dictGet]
  | cons pr rest ih =>
    simp only [List.map_cons, List.mem_cons, not_or] at h
    rw [dictGet, if_neg (fun he => h.1 he.symm)]
    exact ih h.2

theorem dictGet_dictErase_self {α : Type} (k : String) (d : List (String × α))
    (hnd : (d.map Prod.fst).Nodup) : dictGet k (dictErase k d) = none := by
  induction d with
  | nil => simp [dictErase, dictGet]
  | cons pr rest ih =>
    simp only [List.map_cons, List.nodup_cons] at hnd
    by_cases h : pr.1 = k
    · rw [dictErase, if_pos h]
      exact dictGet_eq_none_of_not_mem (h ▸ hnd.1)
    · rw [dictErase, if_neg h, dictGet, if_neg h]
      exact ih hnd.2

theorem readChunksFuel_congr (P : Nat) :
    ∀ (f1 f2 : Nat) (l : List Nat), l.length ≤ f1 → l.length ≤ f2 →
      readChunksFuel P f1 l = readChunksFuel P f2 l := by
  intro f1
  induction f1 with
  | zero =>
    intro f2 l h1 _
    have : l = [] := List.length_eq_zero.mp (Nat.le_zero.mp h1)
    subst this
    cases f2 <;> rfl
  | succ f1 ih =>
    intro f2 l h1 h2
    cases l with
    | nil => cases f2 <;> rfl
    | cons b data =>
      cases f2 with
      | zero => simp at h2
      | succ f2 =>
        rw [readChunksFuel, readChunksFuel]
        by_cases hP : P = 0
        · rw [if_pos hP, if_pos hP]
        · rw [if_neg hP, if_neg hP]
          simp only [List.length_cons] at h1 h2
          have hd : (List.drop P (b :: data)).length ≤ f1 := by
            simp only [List.length_drop, List.length_cons]
            omega
          have hd2 : (List.drop P (b :: data)).length ≤ f2 := by
            simp only [List.length_drop, List.length_cons]
            omega
          rw [ih f2 _ hd hd2]

theorem readChunks_eq (P : Nat) (hP : P ≠ 0) (l : List Nat) (hl : l ≠ []) :
    readChunks P l = l.take P :: readChunks P (l.drop P) := by
  cases l with
  | nil => exact absurd rfl hl
  | cons b data =>
    rw [readChunks, readChunks, List.length_cons, readChunksFuel, if_neg hP]
    have hd : (List.drop P (b :: data)).length ≤ data.length := by
      simp only [List.length_drop, List.length_cons]
      omega
    rw [readChunksFuel_congr P data.length (List.drop P (b :: data)).length _ hd le_rfl]

theorem readChunks_flatten (P : Nat) (hP : 0 < P) (l : List Nat) :
    (readChunks P l).flatten = l := by
  suffices h : ∀ (n : Nat) (l : List Nat), l.length ≤ n → (readChunks P l).flatten = l from
    h l.length l le_rfl
  intro n
  induction n with
  | zero =>
    intro l hl
    have : l = [] := List.length_eq_zero.mp (Nat.le_zero.mp hl)
    subst this
    simp [readChunks, readChunksFuel]
  | succ n ih =>
    intro l hl
    cases l with
    | nil => simp [readChunks, readChunksFuel]
    | cons b data =>
      simp only [List.length_cons] at hl
      have hlen : (List.drop P (b :: data)).length ≤ n := by
        simp only [List.length_drop, List.length_cons]
        omega
      rw [readChunks_eq P (by omega) _ (by simp)]
      rw [List.flatten_cons, ih _ hlen]
      exact List.take_append_drop P (b :: data)

theorem totalPartsOf_zero (P : Nat) : totalPartsOf 0 P = 0 := by
  simp [totalPartsOf]

theorem totalPartsOf_step (P m : Nat) (hP : 0 < P) (hm : 0 < m) :
    totalPartsOf m P = totalPartsOf (m - P) P + 1 := by
  unfold totalPartsOf
  by_cases h : P ≤ m
  · rw [Nat.div_eq_sub_div hP h, Nat.mod_eq_sub_mod h]
    split <;> omega
  · have h1 : m - P = 0 := by omega
    rw [h1, Nat.div_eq_of_lt (by omega), Nat.mod_eq_of_lt (by omega)]
    simp only [Nat.zero_div, Nat.zero_mod]
    split <;> split <;> omega

theorem readChunks_length (P : Nat) (hP : 0 < P) (l : List Nat) :
    (readChunks P l).length = totalPartsOf l.length P := by
  suffices h : ∀ (n : Nat) (l : List Nat), l.length ≤ n →
      (readChunks P l).length = totalPartsOf l.length P from h l.length l le_rfl
  intro n
  induction n with
  | zero =>
    intro l hl
    have : l = [] := List.length_eq_zero.mp (Nat.le_zero.mp hl)
    subst this
    simp [readChunks, readChunksFuel, totalPartsOf]
  | succ n ih =>
    intro l hl
    cases l with
    | nil => simp [readChunks, readChunksFuel, totalPartsOf]
    | cons b data =>
      simp only [List.length_cons] at hl
      have hlen : (List.drop P (b :: data)).length ≤ n := by
        simp only [List.length_drop, List.length_cons]
        omega
      rw [readChunks_eq P (by omega) _ (by simp)]
      rw [List.length_cons, ih _ hlen]
      rw [List.length_drop]
      conv_rhs => rw [totalPartsOf_step P _ hP (by simp)]

theorem totalPartsOf_eq_ceil (n P : Nat) (hP : 0 < P) :
    totalPartsOf n P = (n + P - 1) / P := by
  rcases Nat.eq_zero_or_pos n with hn | hn
  · subst hn
    rw [totalPartsOf_zero]
    rw [Nat.zero_add, Nat.div_eq_of_lt (by omega)]
  · by_cases h : n % P = 0
    · have hqm : P * (n / P) = n := by
        have := Nat.div_add_mod n P
        omega
      have he : n + P - 1 = P * (n / P) + (P - 1) := by omega
      rw [he, Nat.mul_add_div hP, Nat.div_eq_of_lt (show P - 1 < P by omega)]
      simp [totalPartsOf, h]
    · have h1 : 1 ≤ n % P := Nat.one_le_iff_ne_zero.mpr h
      have hlt : n % P < P := Nat.mod_lt n hP
      have hdm := Nat.div_add_mod n P
      have he : n + P - 1 = P * (n / P + 1) + (n % P - 1) := by
        rw [Nat.mul_add, Nat.mul_one]
        omega
      rw [he, Nat.mul_add_div hP, Nat.div_eq_of_lt (show n % P - 1 < P by omega)]
      simp [totalPartsOf, h]

theorem take_replicate_nat (n m : Nat) (a : Nat) :
    (List.replicate m a).take n = List.replicate (min n m) a := by
  induction n generalizing m with
  | zero => simp
  | succ n ih =>
    cases m with
    | zero => simp
    | succ m =>
      rw [List.replicate_succ, List.take_succ_cons, ih, Nat.succ_min_succ,
        List.replicate_succ]

theorem drop_replicate_nat (n m : Nat) (a : Nat) :
    (List.replicate m a).drop n = List.replicate (m - n) a := by
  induction n generalizing m with
  | zero => simp
  | succ n ih =>
    cases m with
    | zero => simp
    | succ m =>
      rw [List.replicate_succ, List.drop_succ_cons, ih, Nat.succ_sub_succ]

theorem splitLoop_fst_true_iff (bn td : String) (tp : Nat) (sendRes : Nat → Bool) :
    ∀ (chunks : List (List Nat)) (fn : Nat),
      (splitLoop bn td tp sendRes chunks fn).1 = true ↔
        ∀ i, fn ≤ i → i < fn + chunks.length → sendRes i = true := by
  intro chunks
  induction chunks with
  | nil =>
    intro fn
    simp only [splitLoop, List.length_nil, Nat.add_zero, true_iff]
    omega
  | cons c rest ih =>
    intro fn
    by_cases h : sendRes fn = true
    · simp only [splitLoop, h, if_true, List.length_cons]
      rw [ih (fn + 1)]
      constructor
      · intro hall i h1 h2
        rcases Nat.eq_or_lt_of_le h1 with rfl | hlt
        · exact h
        · exact hall i hlt (by omega)
      · intro hall i h1 h2
        exact hall i (by omega) (by omega)
    · simp only [splitLoop, h, if_false, Bool.false_eq_true, false_iff, not_forall]
      exact ⟨fn, le_rfl, by simp only [List.length_cons]; omega, h⟩

theorem splitLoop_all_sendAttempt (bn td : String) (tp : Nat) (sendRes : Nat → Bool) :
    ∀ (chunks : List (List Nat)) (fn : Nat) (a : Action),
      a ∈ (splitLoop bn td tp sendRes chunks fn).2.2 →
        ∃ p pn tps, a = Action.sendAttempt p pn tps := by
  intro chunks
  induction chunks with
  | nil => intro fn a ha; simp [splitLoop] at ha
  | cons c rest ih =>
    intro fn a ha
    by_cases h : sendRes fn = true
    · simp only [splitLoop, h, if_true, List.mem_cons] at ha
      rcases ha with rfl | ha
      · exact ⟨_, _, _, rfl⟩
      · exact ih (fn + 1) a ha
    · rw [Bool.not_eq_true] at h
      simp only [splitLoop, h, Bool.false_eq_true, if_false, List.mem_singleton] at ha
      exact ⟨_, _, _, ha⟩

theorem splitLoop_ok (bn td : String) (tp : Nat) (sendRes : Nat → Bool) :
    ∀ (chunks : List (List Nat)) (fn : Nat),
      (∀ i, fn ≤ i → i < fn + chunks.length → sendRes i = true) →
      splitLoop bn td tp sendRes chunks fn =
        (true, chunks.length,
         (List.range' fn chunks.length).map
           (fun i => Action.sendAttempt (td ++ "/" ++ chunkName bn i)
             (some i) (some tp))) := by
  intro chunks
  induction chunks with
  | nil => intro fn _; simp [splitLoop]
  | cons c rest ih =>
    intro fn hall
    have hfn : sendRes fn = true := hall fn le_rfl (by simp only [List.length_cons]; omega)
    simp only [splitLoop, hfn, if_true, List.length_cons]
    rw [ih (fn + 1) (fun i h1 h2 => hall i (by omega)
      (by simp only [List.length_cons]; omega))]
    rw [List.range'_succ]
    simp

theorem splitLoop_fail (bn td : String) (tp : Nat) (sendRes : Nat → Bool) :
    ∀ (chunks : List (List Nat)) (fn k : Nat),
      1 ≤ k → k ≤ chunks.length →
      (∀ i, fn ≤ i → i < fn + (k - 1) → sendRes i = true) →
      sendRes (fn + (k - 1)) = false →
      splitLoop bn td tp sendRes chunks fn =
        (false, k - 1,
         (List.range' fn k).map
           (fun i => Action.sendAttempt (td ++ "/" ++ chunkName bn i)
             (some i) (some tp))) := by
  intro chunks
  induction chunks with
  | nil =>
    intro fn k h1 h2 _ _
    simp only [List.length_nil] at h2
    omega
  | cons c rest ih =>
    intro fn k h1 h2 hpre hfail
    obtain ⟨k', rfl⟩ : ∃ k', k = k' + 1 := ⟨k - 1, by omega⟩
    cases k' with
    | zero =>
      simp only [Nat.add_sub_cancel, Nat.add_zero] at hfail
      simp only [splitLoop, hfail, if_false, Bool.false_eq_true]
      simp [List.range'_succ]
    | succ k'' =>
      have hfn : sendRes fn = true := hpre fn le_rfl (by omega)
      simp only [splitLoop, hfn, if_true]
      rw [ih (fn + 1) (k'' + 1) (by omega) (by simp only [List.length_cons] at h2; omega)
        (fun i ha hb => hpre i (by omega) (by omega))
        (by have : fn + 1 + (k'' + 1 - 1) = fn + (k'' + 1 + 1 - 1) := by omega
            rw [this]; exact hfail)]
      simp [List.range'_succ, Nat.add_sub_cancel]

theorem strEndsWith_lower_append_zip (x : String) :
    strEndsWith (strLower (x ++ ".zip")) ".zip" = true := by
  have hdata : (strLower (x ++ ".zip")).data
      = x.data.map Char.toLower ++ ".zip".data := by
    show ((x ++ ".zip").data.map Char.toLower) = _
    rw [String.data_append, List.map_append]
    rfl
  rw [strEndsWith, hdata]
  rw [List.isSuffixOf_iff_suffix]
  exact List.suffix_append _ _

theorem createZipArchive_skip (cfg : Config) (fp bn td : String)
    (content archivedBytes : List Nat) :
    createZipArchive cfg fp bn td true content archivedBytes = (fp, content) := by
  simp [createZipArchive]

theorem createZipArchive_skip_snd (cfg : Config) (fp bn td : String)
    (content archivedBytes : List Nat) :
    (createZipArchive cfg fp bn td true content archivedBytes).2 = content := by
  simp [createZipArchive]

theorem artifact_eq_sendData (cfg : Config) (fp td : String)
    (content archived : List Nat)
    (hzip : strEndsWith (strLower (sendPathOf cfg fp td)) ".zip" = false) :
    (createZipArchive cfg (sendPathOf cfg fp td) (basename (sendPathOf cfg fp td)) td
        false (sendDataOf cfg fp content archived) archived).2
      = sendDataOf cfg fp content archived := by
  by_cases hc : cfg.compressionLevel = "none"
  · rw [createZipArchive]
    rw [if_neg]
    simp [hc]
  · exfalso
    by_cases hp : passthroughCond cfg fp = true
    · have hfp : strEndsWith (strLower fp) ".zip" = true := by
        have h0 := hp
        rw [passthroughCond, Bool.or_eq_true] at h0
        rcases h0 with h | h
        · exact absurd (by simpa using h) hc
        · exact (Bool.and_eq_true_iff.mp h).1
      rw [sendPathOf, if_pos hp] at hzip
      rw [hzip] at hfp
      exact Bool.false_ne_true hfp
    · rw [sendPathOf, if_neg (by simpa using hp)] at hzip
      rw [strEndsWith_lower_append_zip] at hzip
      exact Bool.false_ne_true hzip.symm
theorem splitAndSendZip_congr_artifact (cfg : Config) (fp td : String)
    (s1 s2 : Bool) (content arch : List Nat) (sendRes : Nat → Bool)
    (h : (createZipArchive cfg fp (basename fp) td s1 content arch).2
       = (createZipArchive cfg fp (basename fp) td s2 content arch).2) :
    splitAndSendZip cfg fp td s1 content arch sendRes
      = splitAndSendZip cfg fp td s2 content arch sendRes := by
  rw [splitAndSendZip, splitAndSendZip, h]

theorem splitAndSendZip_ok (cfg : Config) (fp td : String) (skip : Bool)
    (content arch data : List Nat) (sendRes : Nat → Bool)
    (hP : 0 < cfg.maxFileSize)
    (hart : (createZipArchive cfg fp (basename fp) td skip content arch).2 = data)
    (hall : ∀ i, 1 ≤ i → i ≤ totalPartsOf data.length cfg.maxFileSize →
      sendRes i = true) :
    splitAndSendZip cfg fp td skip content arch sendRes =
      (true, content.length, totalPartsOf data.length cfg.maxFileSize,
       (List.range' 1 (totalPartsOf data.length cfg.maxFileSize)).map
         (fun i => Action.sendAttempt (td ++ "/" ++ chunkName (basename fp) i)
           (some i) (some (totalPartsOf data.length cfg.maxFileSize)))
       ++ reassemblyActions cfg (basename fp)
            (totalPartsOf data.length cfg.maxFileSize + 1)) := by
  have hlen := readChunks_length cfg.maxFileSize hP data
  rw [splitAndSendZip, hart]
  rw [splitLoop_ok (basename fp) td _ sendRes (readChunks cfg.maxFileSize data) 1
    (fun i h1 h2 => hall i h1 (by rw [hlen] at h2; omega))]
  simp only [if_true, hlen]

theorem splitAndSendZip_fail (cfg : Config) (fp td : String) (skip : Bool)
    (content arch data : List Nat) (sendRes : Nat → Bool) (k : Nat)
    (hP : 0 < cfg.maxFileSize)
    (hart : (createZipArchive cfg fp (basename fp) td skip content arch).2 = data)
    (hk1 : 1 ≤ k) (hkN : k ≤ totalPartsOf data.length cfg.maxFileSize)
    (hpre : ∀ i, 1 ≤ i → i < k → sendRes i = true)
    (hfail : sendRes k = false) :
    splitAndSendZip cfg fp td skip content arch sendRes =
      (false, 0, k - 1,
       (List.range' 1 k).map
         (fun i => Action.sendAttempt (td ++ "/" ++ chunkName (basename fp) i)
           (some i) (some (totalPartsOf data.length cfg.maxFileSize)))) := by
  have hlen := readChunks_length cfg.maxFileSize hP data
  rw [splitAndSendZip, hart]
  rw [splitLoop_fail (basename fp) td _ sendRes (readChunks cfg.maxFileSize data) 1 k
    hk1 (by omega) (fun i h1 h2 => hpre i h1 (by omega))
    (by have : 1 + (k - 1) = k := by omega
        rw [this]; exact hfail)]
  simp

theorem processFile_dedup_eq (cfg : Config) (fp fh td : String)
    (content archived : List Nat) (now : String) (pt us : Nat)
    (sendRes : Nat → Bool) (s : BotState)
    (h : anyHashMatch s.file_history fh = true) :
    processFile cfg fp fh td content archived now pt us sendRes s = (s, []) := by
  simp [processFile, h]

theorem processFile_ext_eq (cfg : Config) (fp fh td : String)
    (content archived : List Nat) (now : String) (pt us : Nat)
    (sendRes : Nat → Bool) (s : BotState)
    (h1 : anyHashMatch s.file_history fh = false)
    (h2 : extensionBlocked cfg (basename fp) = true) :
    processFile cfg fp fh td content archived now pt us sendRes s = (s, []) := by
  simp [processFile, h1, h2]

theorem processFile_secondary_false_eq (cfg : Config) (fp fh td : String)
    (content archived : List Nat) (now : String) (pt us : Nat)
    (sendRes : Nat → Bool) (s : BotState)
    (h1 : anyHashMatch s.file_history fh = false)
    (h2 : extensionBlocked cfg (basename fp) = false)
    (h3 : secondaryCheck s.file_history fp fh = false) :
    processFile cfg fp fh td content archived now pt us sendRes s
      = (s, if passthroughCond cfg fp then []
            else [Action.archiveBuilt (sendPathOf cfg fp td)]) := by
  simp [processFile, h1, h2, h3]

theorem processFile_main_eq (cfg : Config) (fp fh td : String)
    (content archived : List Nat) (now : String) (pt us : Nat)
    (sendRes : Nat → Bool) (s : BotState)
    (h1 : anyHashMatch s.file_history fh = false)
    (h2 : extensionBlocked cfg (basename fp) = false)
    (h3 : secondaryCheck s.file_history fp fh = true) :
    processFile cfg fp fh td content archived now pt us sendRes s
      = finishProcess cfg fp fh now pt us content.length
          (if passthroughCond cfg fp then []
           else [Action.archiveBuilt (sendPathOf cfg fp td)])
          (srOf cfg fp td content archived sendRes) s := by
  simp [processFile, h1, h2, h3]

theorem splitAndSendZip_fst (cfg : Config) (fp td : String) (skip : Bool)
    (content arch : List Nat) (sendRes : Nat → Bool) :
    (splitAndSendZip cfg fp td skip content arch sendRes).1
      = (splitLoop (basename fp) td
          (totalPartsOf (createZipArchive cfg fp (basename fp) td skip content arch).2.length
            cfg.maxFileSize)
          sendRes
          (readChunks cfg.maxFileSize
            (createZipArchive cfg fp (basename fp) td skip content arch).2) 1).1 := by
  rw [splitAndSendZip]
  split <;> simp_all

theorem splitAndSendZip_not_saved (cfg : Config) (fp td : String) (skip : Bool)
    (content arch : List Nat) (sendRes : Nat → Bool) :
    Action.savedHistory ∉ (splitAndSendZip cfg fp td skip content arch sendRes).2.2.2 := by
  intro hmem
  simp only [splitAndSendZip] at hmem
  split at hmem
  · simp only [List.mem_append] at hmem
    rcases hmem with hmem | hmem
    · obtain ⟨p, pn, tps, he⟩ := splitLoop_all_sendAttempt _ _ _ _ _ _ _ hmem
      exact Action.noConfusion he
    · rw [reassemblyActions] at hmem
      simp only [List.mem_append, List.mem_singleton] at hmem
      rcases hmem with hmem | hmem
      · exact Action.noConfusion hmem
      · split at hmem
        · simp only [List.mem_singleton] at hmem
          exact Action.noConfusion hmem
        · simp at hmem
  · obtain ⟨p, pn, tps, he⟩ := splitLoop_all_sendAttempt _ _ _ _ _ _ _ hmem
    exact Action.noConfusion he

theorem srOf_not_saved (cfg : Config) (fp td : String)
    (content archived : List Nat) (sendRes : Nat → Bool) :
    Action.savedHistory ∉ (srOf cfg fp td content archived sendRes).2.2.2 := by
  simp only [srOf]
  split
  · split
    · exact splitAndSendZip_not_saved _ _ _ _ _ _ _
    · exact splitAndSendZip_not_saved _ _ _ _ _ _ _
  · simp

theorem secondaryCheck_of_no_hashMatch (hist : List (String × FileRecord))
    (fp fh : String) (h : anyHashMatch hist fh = false) :
    secondaryCheck hist fp fh = true := by
  rw [secondaryCheck]
  cases hd : dictGet fp hist with
  | none => rfl
  | some r =>
    have hmem := dictGet_mem hd
    rw [anyHashMatch, List.any_eq_false] at h
    have hr := h (fp, r) hmem
    have hne : (r.hash == fh) = false := by
      cases hq : (r.hash == fh)
      · rfl
      · exact absurd hq hr
    simp [bne, hne]

theorem splitLoop_mem_head (bn td : String) (tp : Nat) (sendRes : Nat → Bool)
    (c : List Nat) (rest : List (List Nat)) (fn : Nat) :
    Action.sendAttempt (td ++ "/" ++ chunkName bn fn) (some fn) (some tp)
      ∈ (splitLoop bn td tp sendRes (c :: rest) fn).2.2 := by
  by_cases h : sendRes fn = true
  · simp [splitLoop, h]
  · rw [Bool.not_eq_true] at h
    simp [splitLoop, h]

theorem splitAndSendZip_has_attempt (cfg : Config) (fp td : String) (skip : Bool)
    (content arch data : List Nat) (sendRes : Nat → Bool)
    (hP : 0 < cfg.maxFileSize)
    (hart : (createZipArchive cfg fp (basename fp) td skip content arch).2 = data)
    (hne : data ≠ []) :
    ∃ p pn tn, Action.sendAttempt p pn tn
      ∈ (splitAndSendZip cfg fp td skip content arch sendRes).2.2.2 := by
  have hch := readChunks_eq cfg.maxFileSize (by omega) data hne
  refine ⟨td ++ "/" ++ chunkName (basename fp) 1, some 1,
    some (totalPartsOf data.length cfg.maxFileSize), ?_⟩
  simp only [splitAndSendZip, hart, hch]
  have hm := splitLoop_mem_head (basename fp) td
    (totalPartsOf data.length cfg.maxFileSize) sendRes
    (data.take cfg.maxFileSize) (readChunks cfg.maxFileSize (data.drop cfg.maxFileSize)) 1
  split
  · simp only [List.mem_append]
    exact Or.inl hm
  · exact hm

theorem srOf_fst_true (cfg : Config) (fp td : String)
    (content archived : List Nat) (sendRes : Nat → Bool)
    (hP : 0 < cfg.maxFileSize)
    (h : (srOf cfg fp td content archived sendRes).1 = true) :
    if (sendDataOf cfg fp content archived).length > cfg.maxFileSize then
      ∀ i, 1 ≤ i →
        i ≤ totalPartsOf (sendDataOf cfg fp content archived).length cfg.maxFileSize →
        sendRes i = true
    else sendRes 1 = true := by
  by_cases hbig : (sendDataOf cfg fp content archived).length > cfg.maxFileSize
  · rw [if_pos hbig]
    have hart : ∀ skip,
        (strEndsWith (strLower (sendPathOf cfg fp td)) ".zip" = false → skip = false) →
        (skip = false → strEndsWith (strLower (sendPathOf cfg fp td)) ".zip" = false) →
        True := fun _ _ _ => trivial
    by_cases hz : strEndsWith (strLower (sendPathOf cfg fp td)) ".zip" = true
    · rw [srOf] at h
      simp only [if_pos hbig, hz, if_true] at h
      rw [splitAndSendZip_fst] at h
      rw [createZipArchive_skip_snd] at h
      rw [splitLoop_fst_true_iff] at h
      intro i h1 h2
      refine h i h1 ?_
      rw [readChunks_length cfg.maxFileSize hP]
      omega
    · have hz' : strEndsWith (strLower (sendPathOf cfg fp td)) ".zip" = false := by
        cases hq : strEndsWith (strLower (sendPathOf cfg fp td)) ".zip"
        · rfl
        · exact absurd hq hz
      rw [srOf] at h
      simp only [if_pos hbig, hz', Bool.false_eq_true, if_false] at h
      rw [splitAndSendZip_fst] at h
      rw [artifact_eq_sendData cfg fp td content archived hz'] at h
      rw [splitLoop_fst_true_iff] at h
      intro i h1 h2
      refine h i h1 ?_
      rw [readChunks_length cfg.maxFileSize hP]
      omega
  · rw [if_neg hbig]
    rw [srOf] at h
    simp only [if_neg hbig] at h
    exact h

theorem foldl_max_init_le (l : List (String × FileRecord)) (a : Nat) :
    a ≤ l.foldl (fun m pr => max m pr.2.file_id) a := by
  induction l generalizing a with
  | nil => exact le_rfl
  | cons pr rest ih =>
    exact le_trans (Nat.le_max_left _ _) (ih (max a pr.2.file_id))

theorem foldl_max_mem_le (l : List (String × FileRecord)) (a : Nat) :
    ∀ pr ∈ l, pr.2.file_id ≤ l.foldl (fun m pr => max m pr.2.file_id) a := by
  induction l generalizing a with
  | nil => intro pr h; simp at h
  | cons hd rest ih =>
    intro pr h
    rcases List.mem_cons.mp h with rfl | h
    · exact le_trans (Nat.le_max_right a _) (foldl_max_init_le rest _)
    · exact ih (max a hd.2.file_id) pr h

theorem foldl_max_eq_init_or_mem (l : List (String × FileRecord)) (a : Nat) :
    l.foldl (fun m pr => max m pr.2.file_id) a = a
      ∨ ∃ pr ∈ l, l.foldl (fun m pr => max m pr.2.file_id) a = pr.2.file_id := by
  induction l generalizing a with
  | nil => exact Or.inl rfl
  | cons hd rest ih =>
    rcases ih (max a hd.2.file_id) with h | ⟨pr, hm, he⟩
    · rcases max_choice a hd.2.file_id with hc | hc
      · exact Or.inl (by rw [List.foldl_cons, h, hc])
      · exact Or.inr ⟨hd, List.mem_cons_self _ _, by rw [List.foldl_cons, h, hc]⟩
    · exact Or.inr ⟨pr, List.mem_cons_of_mem _ hm, by rw [List.foldl_cons, he]⟩

theorem sendFile_success_no_sleep (esc : String → String) (fw : Bool)
    (path caption : String) (part : Option (Nat × Nat)) (st : SenderState)
    (rest : List SendResult) :
    ∃ st' evs,
      sendFile esc fw path caption part st (SendResult.success :: rest)
        = some (true, st', evs)
      ∧ evs.filterMap sleepDuration = [] := by
  cases hd : dictGet path st.errorMessages with
  | none =>
    cases fw with
    | false =>
      exact ⟨st, [SendEvent.documentSent path (fullCaption esc caption part)],
        by simp [sendFile, hd], by simp [sleepDuration]⟩
    | true =>
      exact ⟨st, [SendEvent.documentSent path (fullCaption esc caption part),
          SendEvent.forwarded],
        by simp [sendFile, hd], by simp [sleepDuration]⟩
  | some mid =>
    cases fw with
    | false =>
      exact ⟨{ st with errorMessages := dictErase path st.errorMessages },
        [SendEvent.documentSent path (fullCaption esc caption part),
         SendEvent.noticeDeleted mid],
        by simp [sendFile, hd], by simp [sleepDuration]⟩
    | true =>
      exact ⟨{ st with errorMessages := dictErase path st.errorMessages },
        [SendEvent.documentSent path (fullCaption esc caption part),
         SendEvent.forwarded, SendEvent.noticeDeleted mid],
        by simp [sendFile, hd], by simp [sleepDuration]⟩

/-! ## The claims -/

/-- Claim C2: for every candidate file, delivery is skipped — `process_file`
returns before any archiving or sending, with no state change and no
observable action — whenever the computed content hash of the file equals
the stored hash of any existing history record, regardless of which path
that record belongs to (global dedup, not per-path). -/
theorem globalDedupSkip (cfg : Config) (file_path file_hash temp_dir : String)
    (content archived : List Nat) (now : String) (pt us : Nat)
    (sendRes : Nat → Bool) (s : BotState)
    (h : anyHashMatch s.file_history file_hash = true) :
    processFile cfg file_path file_hash temp_dir content archived now pt us sendRes s
      = (s, []) :=
  processFile_dedup_eq cfg file_path file_hash temp_dir content archived now pt us
    sendRes s h

/-- Witness for C2: a candidate at a fresh path `"a/new"` whose hash
matches the record stored under the different path `"a/old"` is skipped
outright. -/
theorem globalDedupSkip_witness :
    anyHashMatch sampleState.file_history "h1" = true
    ∧ dictGet "a/new" sampleState.file_history = none
    ∧ processFile sampleCfg "a/new" "h1" "T" [1, 2, 3] [9] "t" 0 0
        (fun _ => true) sampleState = (sampleState, []) :=
  ⟨by decide, by decide,
   globalDedupSkip sampleCfg "a/new" "h1" "T" [1, 2, 3] [9] "t" 0 0
     (fun _ => true) sampleState (by decide)⟩

/-- Claim C7: if encryption is enabled while compression is `none`, the
program fails during startup configuration validation, before any cycle
runs; every other configuration combination passes validation and the
scheduling loop runs. -/
theorem configRejection (cfg : Config) (raises : String → Bool)
    (cycles : List (List String)) :
    (cfg.enableEncryption = true ∧ cfg.compressionLevel = "none" →
      botProgram cfg raises cycles
        = Except.error
            "Error: Encryption cannot be enabled when compression is set to none.")
    ∧ ((cfg.enableEncryption = true → cfg.compressionLevel ≠ "none") →
      botProgram cfg raises cycles = Except.ok (runLoop raises cycles)) := by
  constructor
  · rintro ⟨h1, h2⟩
    have hv : validateConfig cfg = Except.error
        "Error: Encryption cannot be enabled when compression is set to none." := by
      rw [validateConfig, if_pos]
      rw [h1, h2]
      rfl
    rw [botProgram, hv]
  · intro h
    have hv : validateConfig cfg = Except.ok () := by
      rw [validateConfig, if_neg]
      intro hc
      rw [Bool.and_eq_true_iff] at hc
      exact h hc.1 (by simpa using hc.2)
    rw [botProgram, hv]

/-- Witness for C7: the invalid fixture configuration is rejected with the
exact error, and the valid fixture configuration reaches the loop. -/
theorem configRejection_witness :
    botProgram encNoneCfg (fun _ => false) [["a"]]
      = Except.error
          "Error: Encryption cannot be enabled when compression is set to none."
    ∧ botProgram sampleCfg (fun _ => false) [["a"]]
        = Except.ok (runLoop (fun _ => false) [["a"]]) :=
  ⟨(configRejection encNoneCfg (fun _ => false) [["a"]]).1 ⟨rfl, rfl⟩,
   (configRejection sampleCfg (fun _ => false) [["a"]]).2 (by intro h; exact absurd h (by decide))⟩

/-- Claim C4: a flood-control response makes `send_file` sleep exactly the
signaled duration and retry the same send from scratch with no retry-count
ceiling: against a transport returning flood control with signaled delays
`delays` for the first `delays.length` attempts and then succeeding, the
send succeeds after exactly `delays.length` backoff sleeps, each of its
signaled duration, in order. -/
theorem floodControlConvergence (esc : String → String) (fw : Bool)
    (path caption : String) (part : Option (Nat × Nat)) (st : SenderState)
    (delays : List Nat) (rest : List SendResult) :
    ∃ st' evs,
      sendFile esc fw path caption part st
          (delays.map (fun d => SendResult.floodControl (some d))
            ++ SendResult.success :: rest)
        = some (true, st', evs)
      ∧ evs.filterMap sleepDuration = delays := by
  induction delays with
  | nil =>
    simpa using sendFile_success_no_sleep esc fw path caption part st rest
  | cons d ds ih =>
    obtain ⟨st', evs, h1, h2⟩ := ih
    refine ⟨st', SendEvent.sleep d :: evs, ?_, ?_⟩
    · simp only [List.map_cons, List.cons_append, sendFile, List.append_eq]
      rw [h1]
      rfl
    · simp [sleepDuration, h2]

/-- Claim C9: a terminal transport error makes `send_file` emit an error
notice and track its message id under the file's path, and a later
successful send of the same path deletes the tracked notice and removes
its tracking entry (the Nodup hypothesis is the key-uniqueness invariant
of the Python `error_messages` dict). -/
theorem errorNoticeTracking (esc : String → String) (fw : Bool)
    (path caption : String) (part : Option (Nat × Nat)) (st : SenderState)
    (rest : List SendResult) :
    (sendFile esc fw path caption part st (SendResult.terminalError :: rest)
       = some (false,
           { errorMessages := dictSet path st.nextMessageId st.errorMessages,
             nextMessageId := st.nextMessageId + 1 },
           [SendEvent.errorNotice path st.nextMessageId])
     ∧ dictGet path (dictSet path st.nextMessageId st.errorMessages)
         = some st.nextMessageId)
    ∧ ∀ mid, dictGet path st.errorMessages = some mid →
        ∃ evs,
          sendFile esc fw path caption part st (SendResult.success :: rest)
            = some (true,
                { st with errorMessages := dictErase path st.errorMessages }, evs)
          ∧ SendEvent.noticeDeleted mid ∈ evs
          ∧ ((st.errorMessages.map Prod.fst).Nodup →
              dictGet path (dictErase path st.errorMessages) = none) := by
  refine ⟨⟨by simp [sendFile], dictGet_dictSet_self _ _ _⟩, ?_⟩
  intro mid hm
  cases fw with
  | false =>
    exact ⟨[SendEvent.documentSent path (fullCaption esc caption part),
        SendEvent.noticeDeleted mid],
      by simp [sendFile, hm], by simp,
      fun hnd => dictGet_dictErase_self path _ hnd⟩
  | true =>
    exact ⟨[SendEvent.documentSent path (fullCaption esc caption part),
        SendEvent.forwarded, SendEvent.noticeDeleted mid],
      by simp [sendFile, hm], by simp,
      fun hnd => dictGet_dictErase_self path _ hnd⟩

/-- Witness for C9: with notice 7 tracked for path `"p"` in the fixture
sender state, a successful resend of `"p"` deletes message 7 and removes
the tracking entry. -/
theorem errorNoticeTracking_witness :
    ∃ evs,
      sendFile id false "p" "c" none sampleSender (SendResult.success :: [])
        = some (true,
            { sampleSender with
                errorMessages := dictErase "p" sampleSender.errorMessages }, evs)
      ∧ SendEvent.noticeDeleted 7 ∈ evs
      ∧ ((sampleSender.errorMessages.map Prod.fst).Nodup →
          dictGet "p" (dictErase "p" sampleSender.errorMessages) = none) :=
  (errorNoticeTracking id false "p" "c" none sampleSender []).2 7 (by decide)

/-- Claim C5 counterexample: with sorted files `["bad", "good"]` where
processing `"bad"` raises an unexpected exception, the cycle does NOT
continue with `"good"`: the `except Exception` handler sits around the
whole `for` loop in `main`, so the rest of the cycle is skipped — the
claim's statement that the same cycle continues processing the remaining
files is false. -/
theorem cycleAbortCounterexample :
    runCycle (fun f => f == "bad") ["bad", "good"] = ["bad"]
    ∧ ¬("good" ∈ runCycle (fun f => f == "bad") ["bad", "good"]) := by
  constructor
  · decide
  · decide

/-- Claim C5 as amended: an unexpected exception escaping one file's
pipeline is caught at the CYCLE boundary (main's `except Exception`):
the files before the raising file are processed, the raising file's
processing is started, the remaining files of that cycle are skipped,
and the scheduling loop itself never aborts — every subsequent cycle
still runs. -/
theorem cycleBoundaryCatch (raises : String → Bool) (files : List String)
    (cycles : List (List String)) :
    runCycle raises files
      = files.takeWhile (fun f => !raises f)
        ++ (files.dropWhile (fun f => !raises f)).take 1
    ∧ runLoop raises cycles = cycles.map (runCycle raises)
    ∧ (runLoop raises cycles).length = cycles.length := by
  refine ⟨?_, ?_, ?_⟩
  · induction files with
    | nil => simp [runCycle, forFiles]
    | cons f rest ih =>
      by_cases h : raises f = true
      · simp [runCycle, forFiles, h]
      · have h' : raises f = false := by
          cases hq : raises f
          · rfl
          · exact absurd hq h
        simp only [runCycle, forFiles, h', Bool.false_eq_true, if_false,
          List.takeWhile_cons, List.dropWhile_cons, Bool.not_false, if_true,
          List.cons_append]
        rw [runCycle] at ih
        rw [ih]
  · induction cycles with
    | nil => rfl
    | cons c rest ih => simp [runLoop, ih]
  · induction cycles with
    | nil => rfl
    | cons c rest ih => simp [runLoop, ih]

/-- Claim C10: whenever a file reaches the secondary per-path check of
`process_file` (bot.py line 305), the check is necessarily true, because a
stored hash equal to the computed one — under the file's own path or any
other — would already have triggered the global dedup return at line 282;
consequently the implicit else branch (archive built, nothing sent) is
unreachable: whenever an archive is built, a send is attempted. -/
theorem secondaryCheckRedundant :
    (∀ (hist : List (String × FileRecord)) (file_path file_hash : String),
       anyHashMatch hist file_hash = false →
       secondaryCheck hist file_path file_hash = true)
    ∧ ∀ (cfg : Config) (file_path file_hash temp_dir : String)
        (content archived : List Nat) (now : String) (pt us : Nat)
        (sendRes : Nat → Bool) (s : BotState) (zp : String),
        0 < cfg.maxFileSize →
        Action.archiveBuilt zp
          ∈ (processFile cfg file_path file_hash temp_dir content archived
              now pt us sendRes s).2 →
        ∃ p pn tn, Action.sendAttempt p pn tn
          ∈ (processFile cfg file_path file_hash temp_dir content archived
              now pt us sendRes s).2 := by
  constructor
  · exact secondaryCheck_of_no_hashMatch
  · intro cfg fp fh td content archived now pt us sendRes s zp hP harch
    by_cases h1 : anyHashMatch s.file_history fh = true
    · rw [processFile_dedup_eq cfg fp fh td content archived now pt us sendRes s h1]
        at harch
      simp at harch
    · have h1' : anyHashMatch s.file_history fh = false := by
        cases hq : anyHashMatch s.file_history fh
        · rfl
        · exact absurd hq h1
      by_cases h2 : extensionBlocked cfg (basename fp) = true
      · rw [processFile_ext_eq cfg fp fh td content archived now pt us sendRes s h1' h2]
          at harch
        simp at harch
      · have h2' : extensionBlocked cfg (basename fp) = false := by
          cases hq : extensionBlocked cfg (basename fp)
          · rfl
          · exact absurd hq h2
        have h3 := secondaryCheck_of_no_hashMatch s.file_history fp fh h1'
        rw [processFile_main_eq cfg fp fh td content archived now pt us sendRes s
          h1' h2' h3] at harch ⊢
        have hsr : ∃ p pn tn, Action.sendAttempt p pn tn
            ∈ (srOf cfg fp td content archived sendRes).2.2.2 := by
          simp only [srOf]
          by_cases hbig : (sendDataOf cfg fp content archived).length > cfg.maxFileSize
          · rw [if_pos hbig]
            have hne : sendDataOf cfg fp content archived ≠ [] := by
              intro he
              rw [he] at hbig
              simp at hbig
            by_cases hz : strEndsWith (strLower (sendPathOf cfg fp td)) ".zip" = true
            · rw [if_pos hz]
              exact splitAndSendZip_has_attempt cfg _ td true _ archived _ sendRes hP
                (createZipArchive_skip_snd _ _ _ _ _ _) hne
            · have hz' : strEndsWith (strLower (sendPathOf cfg fp td)) ".zip" = false := by
                cases hq : strEndsWith (strLower (sendPathOf cfg fp td)) ".zip"
                · rfl
                · exact absurd hq hz
              rw [if_neg hz]
              exact splitAndSendZip_has_attempt cfg _ td false _ archived _ sendRes hP
                (artifact_eq_sendData cfg fp td content archived hz') hne
          · rw [if_neg hbig]
            exact ⟨sendPathOf cfg fp td, none, none, by simp⟩
        obtain ⟨p, pn, tn, hmem⟩ := hsr
        refine ⟨p, pn, tn, ?_⟩
        rw [finishProcess]
        split
        · simp only [List.append_assoc, List.mem_append]
          exact Or.inr (Or.inl hmem)
        · simp only [List.append_assoc, List.mem_append]
          exact Or.inr (Or.inl hmem)

/-- Witness for C10: a concrete state where the global dedup misses, the
secondary check is true, and the build-then-send path runs. -/
theorem secondaryCheckRedundant_witness :
    secondaryCheck sampleState.file_history "a/new" "h2" = true
    ∧ ∃ p pn tn, Action.sendAttempt p pn tn
        ∈ (processFile sampleCfg "d/f" "h2" "T" [1, 2, 3] [9, 9, 9] "t" 0 0
            (fun _ => true) sampleState).2 :=
  ⟨secondaryCheckRedundant.1 sampleState.file_history "a/new" "h2" (by decide),
   secondaryCheckRedundant.2 sampleCfg "d/f" "h2" "T" [1, 2, 3] [9, 9, 9] "t" 0 0
     (fun _ => true) sampleState "T/f.zip" (by decide) (by decide)⟩

/-- Claim C3: for an artifact of size `S > 0` split with part size
`P > 0`, `total_parts` as computed on bot.py line 174 equals
`ceil(S/P)`, the loop produces exactly that many chunks, concatenating
the chunks in index order reproduces the artifact byte-for-byte, and —
with an all-success transport — `split_and_send_zip` sends exactly parts
`1..totalParts`, each send carrying the one total computed before the
loop, which `send_file` embeds in the part's caption as
`\(Part i/N\)`. -/
theorem splitRoundTrip (P : Nat) (artifact : List Nat)
    (hP : 0 < P) (_hA : artifact ≠ []) :
    totalPartsOf artifact.length P = (artifact.length + P - 1) / P
    ∧ (readChunks P artifact).length = (artifact.length + P - 1) / P
    ∧ (readChunks P artifact).flatten = artifact
    ∧ (∀ (cfg : Config) (fp td : String) (arch : List Nat) (sendRes : Nat → Bool),
        cfg.maxFileSize = P → (∀ i, sendRes i = true) →
        splitAndSendZip cfg fp td true artifact arch sendRes
          = (true, artifact.length, totalPartsOf artifact.length P,
             (List.range' 1 (totalPartsOf artifact.length P)).map
               (fun i => Action.sendAttempt (td ++ "/" ++ chunkName (basename fp) i)
                 (some i) (some (totalPartsOf artifact.length P)))
             ++ reassemblyActions cfg (basename fp)
                  (totalPartsOf artifact.length P + 1)))
    ∧ (∀ (esc : String → String) (c : String) (pn : Nat),
        fullCaption esc c (some (pn, totalPartsOf artifact.length P))
          = esc c ++ "\n\\(Part " ++ toString pn ++ "/"
              ++ toString (totalPartsOf artifact.length P) ++ "\\)") := by
  refine ⟨totalPartsOf_eq_ceil artifact.length P hP, ?_, readChunks_flatten P hP artifact,
    ?_, ?_⟩
  · rw [readChunks_length P hP artifact, totalPartsOf_eq_ceil artifact.length P hP]
  · intro cfg fp td arch sendRes hcfg hall
    subst hcfg
    have h := splitAndSendZip_ok cfg fp td true artifact arch artifact sendRes hP
      (createZipArchive_skip_snd cfg fp (basename fp) td artifact arch)
      (fun i _ _ => hall i)
    rw [h]
  · intro esc c pn
    simp [fullCaption, partSuffix, String.append_assoc]

/-- Witness for C3: part size 2 and the 3-byte artifact `[1, 2, 3]` give
2 parts whose concatenation restores the artifact, and the concrete split
run matches the characterization. -/
theorem splitRoundTrip_witness :
    (readChunks 2 [1, 2, 3]).flatten = [1, 2, 3]
    ∧ (readChunks 2 [1, 2, 3]).length = 2
    ∧ splitAndSendZip sampleCfg "d/f" "T" true [1, 2, 3] [9] (fun _ => true)
        = (true, 3, totalPartsOf 3 2,
           (List.range' 1 (totalPartsOf 3 2)).map
             (fun i => Action.sendAttempt ("T" ++ "/" ++ chunkName (basename "d/f") i)
               (some i) (some (totalPartsOf 3 2)))
           ++ reassemblyActions sampleCfg (basename "d/f") (totalPartsOf 3 2 + 1)) := by
  have h := splitRoundTrip 2 [1, 2, 3] (by decide) (by decide)
  exact ⟨h.2.2.1, h.2.1.trans (by decide), h.2.2.2.1 sampleCfg "d/f" "T" [9]
    (fun _ => true) rfl (fun i => rfl)⟩

/-- Claim C1: the history record for a processed file is created or
updated (and persisted — the `savedHistory` action) only after a fully
successful delivery: all parts of a split artifact, or the single send.
And if part `k` of `N` (`k < N`) fails terminally while parts `1..k-1`
succeeded, then exactly parts `1..k` are attempted — `k+1..N` never are —
and the history table is left unchanged. -/
theorem historyAtomicity (cfg : Config) (file_path file_hash temp_dir : String)
    (content archived : List Nat) (now : String) (pt us : Nat)
    (sendRes : Nat → Bool) (s : BotState)
    (hP : 0 < cfg.maxFileSize) :
    ((Action.savedHistory
        ∈ (processFile cfg file_path file_hash temp_dir content archived
            now pt us sendRes s).2
      ∨ (processFile cfg file_path file_hash temp_dir content archived
          now pt us sendRes s).1.file_history ≠ s.file_history) →
      (if (sendDataOf cfg file_path content archived).length > cfg.maxFileSize then
        ∀ i, 1 ≤ i →
          i ≤ totalPartsOf (sendDataOf cfg file_path content archived).length
            cfg.maxFileSize →
          sendRes i = true
      else sendRes 1 = true))
    ∧ ∀ k : Nat,
        anyHashMatch s.file_history file_hash = false →
        extensionBlocked cfg (basename file_path) = false →
        secondaryCheck s.file_history file_path file_hash = true →
        (sendDataOf cfg file_path content archived).length > cfg.maxFileSize →
        1 ≤ k →
        k < totalPartsOf (sendDataOf cfg file_path content archived).length
          cfg.maxFileSize →
        (∀ i, 1 ≤ i → i < k → sendRes i = true) →
        sendRes k = false →
        (processFile cfg file_path file_hash temp_dir content archived
            now pt us sendRes s).1.file_history = s.file_history
        ∧ Action.savedHistory
            ∉ (processFile cfg file_path file_hash temp_dir content archived
                now pt us sendRes s).2
        ∧ (processFile cfg file_path file_hash temp_dir content archived
            now pt us sendRes s).2.filter isSendAttempt
          = (List.range' 1 k).map
              (fun i => Action.sendAttempt
                (temp_dir ++ "/"
                  ++ chunkName (basename (sendPathOf cfg file_path temp_dir)) i)
                (some i)
                (some (totalPartsOf (sendDataOf cfg file_path content archived).length
                  cfg.maxFileSize))) := by
  constructor
  · intro hdis
    by_cases h1 : anyHashMatch s.file_history file_hash = true
    · rw [processFile_dedup_eq cfg file_path file_hash temp_dir content archived
        now pt us sendRes s h1] at hdis
      rcases hdis with hdis | hdis
      · simp at hdis
      · simp at hdis
    · have h1' : anyHashMatch s.file_history file_hash = false := by
        cases hq : anyHashMatch s.file_history file_hash
        · rfl
        · exact absurd hq h1
      by_cases h2 : extensionBlocked cfg (basename file_path) = true
      · rw [processFile_ext_eq cfg file_path file_hash temp_dir content archived
          now pt us sendRes s h1' h2] at hdis
        rcases hdis with hdis | hdis
        · simp at hdis
        · simp at hdis
      · have h2' : extensionBlocked cfg (basename file_path) = false := by
          cases hq : extensionBlocked cfg (basename file_path)
          · rfl
          · exact absurd hq h2
        by_cases h3 : secondaryCheck s.file_history file_path file_hash = true
        · rw [processFile_main_eq cfg file_path file_hash temp_dir content archived
            now pt us sendRes s h1' h2' h3] at hdis
          by_cases hs : (srOf cfg file_path temp_dir content archived sendRes).1 = true
          · exact srOf_fst_true cfg file_path temp_dir content archived sendRes hP hs
          · exfalso
            have hs' : (srOf cfg file_path temp_dir content archived sendRes).1 = false := by
              cases hq : (srOf cfg file_path temp_dir content archived sendRes).1
              · rfl
              · exact absurd hq hs
            simp only [finishProcess, hs', Bool.false_eq_true, if_false] at hdis
            rcases hdis with hdis | hdis
            · simp only [List.mem_append] at hdis
              rcases hdis with (hdis | hdis) | hdis
              · split at hdis
                · simp at hdis
                · simp only [List.mem_singleton] at hdis
                  exact Action.noConfusion hdis
              · exact srOf_not_saved cfg file_path temp_dir content archived sendRes hdis
              · simp only [List.mem_singleton] at hdis
                exact Action.noConfusion hdis
            · exact hdis rfl
        · have h3' : secondaryCheck s.file_history file_path file_hash = false := by
            cases hq : secondaryCheck s.file_history file_path file_hash
            · rfl
            · exact absurd hq h3
          rw [processFile_secondary_false_eq cfg file_path file_hash temp_dir content
            archived now pt us sendRes s h1' h2' h3'] at hdis
          rcases hdis with hdis | hdis
          · split at hdis
            · simp at hdis
            · simp only [List.mem_singleton] at hdis
              exact Action.noConfusion hdis
          · exact absurd rfl hdis
  · intro k h1 h2 h3 hbig hk1 hkN hpre hfail
    rw [processFile_main_eq cfg file_path file_hash temp_dir content archived
      now pt us sendRes s h1 h2 h3]
    have hsr : srOf cfg file_path temp_dir content archived sendRes
        = (false, 0, k - 1,
           (List.range' 1 k).map
             (fun i => Action.sendAttempt
               (temp_dir ++ "/"
                 ++ chunkName (basename (sendPathOf cfg file_path temp_dir)) i)
               (some i)
               (some (totalPartsOf
                 (sendDataOf cfg file_path content archived).length cfg.maxFileSize)))) := by
      simp only [srOf]
      rw [if_pos hbig]
      by_cases hz : strEndsWith (strLower (sendPathOf cfg file_path temp_dir)) ".zip"
          = true
      · rw [if_pos hz]
        exact splitAndSendZip_fail cfg _ temp_dir true _ archived _ sendRes k hP
          (createZipArchive_skip_snd cfg _ _ temp_dir _ archived) hk1 (by omega)
          hpre hfail
      · have hz' : strEndsWith (strLower (sendPathOf cfg file_path temp_dir)) ".zip"
            = false := by
          cases hq : strEndsWith (strLower (sendPathOf cfg file_path temp_dir)) ".zip"
          · rfl
          · exact absurd hq hz
        rw [if_neg hz]
        exact splitAndSendZip_fail cfg _ temp_dir false _ archived _ sendRes k hP
          (artifact_eq_sendData cfg file_path temp_dir content archived hz') hk1
          (by omega) hpre hfail
    rw [hsr]
    simp only [finishProcess, Bool.false_eq_true, if_false]
    refine ⟨by trivial, ?_, ?_⟩
    · intro hmem
      simp only [List.mem_append] at hmem
      rcases hmem with (hmem | hmem) | hmem
      · split at hmem
        · simp at hmem
        · simp only [List.mem_singleton] at hmem
          exact Action.noConfusion hmem
      · obtain ⟨i, _, he⟩ := List.mem_map.mp hmem
        exact Action.noConfusion he
      · simp only [List.mem_singleton] at hmem
        exact Action.noConfusion hmem
    · rw [List.filter_append, List.filter_append]
      have harch : List.filter isSendAttempt
          (if passthroughCond cfg file_path then []
           else [Action.archiveBuilt (sendPathOf cfg file_path temp_dir)]) = [] := by
        split
        · rfl
        · simp [isSendAttempt]
      have hmapf : List.filter isSendAttempt
          ((List.range' 1 k).map
            (fun i => Action.sendAttempt
              (temp_dir ++ "/"
                ++ chunkName (basename (sendPathOf cfg file_path temp_dir)) i)
              (some i)
              (some (totalPartsOf
                (sendDataOf cfg file_path content archived).length cfg.maxFileSize))))
          = (List.range' 1 k).map
              (fun i => Action.sendAttempt
                (temp_dir ++ "/"
                  ++ chunkName (basename (sendPathOf cfg file_path temp_dir)) i)
                (some i)
                (some (totalPartsOf
                  (sendDataOf cfg file_path content archived).length cfg.maxFileSize))) := by
        rw [List.filter_eq_self]
        intro a ha
        obtain ⟨i, _, he⟩ := List.mem_map.mp ha
        rw [← he]
        rfl
      rw [harch, hmapf]
      simp [isSendAttempt]

/-- Witness for C1: part size 2, a 5-byte artifact (3 parts), transport
failing at part 2: only parts 1 and 2 are attempted, the history is
unchanged and never persisted. -/
theorem historyAtomicity_witness :
    (processFile sampleCfg "d/f" "h2" "T" [1, 2, 3, 4, 5] [7, 7, 7, 7, 7] "t" 0 0
        (fun i => i != 2) sampleState).1.file_history = sampleState.file_history
    ∧ Action.savedHistory
        ∉ (processFile sampleCfg "d/f" "h2" "T" [1, 2, 3, 4, 5] [7, 7, 7, 7, 7] "t" 0 0
            (fun i => i != 2) sampleState).2
    ∧ (processFile sampleCfg "d/f" "h2" "T" [1, 2, 3, 4, 5] [7, 7, 7, 7, 7] "t" 0 0
        (fun i => i != 2) sampleState).2.filter isSendAttempt
      = (List.range' 1 2).map
          (fun i => Action.sendAttempt
            ("T" ++ "/" ++ chunkName (basename (sendPathOf sampleCfg "d/f" "T")) i)
            (some i)
            (some (totalPartsOf
              (sendDataOf sampleCfg "d/f" [1, 2, 3, 4, 5] [7, 7, 7, 7, 7]).length
              sampleCfg.maxFileSize))) :=
  (historyAtomicity sampleCfg "d/f" "h2" "T" [1, 2, 3, 4, 5] [7, 7, 7, 7, 7] "t" 0 0
      (fun i => i != 2) sampleState (by decide)).2 2 (by decide) (by decide) (by decide)
    (by decide) (by decide) (by decide) (by decide) (by decide)

/-- Claim C8: the startup counter equals the maximum `file_id` of the
loaded history (so it dominates every record and is attained by one when
the history is non-empty), and `process_file` preserves the dominance
invariant while assigning every newly created or updated record a
`file_id` that is strictly greater than the `file_id` of every record
existing at that moment — hence ids are unique across records and
increase in assignment order. -/
theorem sequenceIdMonotone :
    (∀ hist : List (String × FileRecord),
      (∀ pr ∈ hist, pr.2.file_id ≤ initFileCounter hist)
      ∧ (hist ≠ [] → ∃ pr ∈ hist, initFileCounter hist = pr.2.file_id))
    ∧ ∀ (cfg : Config) (file_path file_hash temp_dir : String)
        (content archived : List Nat) (now : String) (pt us : Nat)
        (sendRes : Nat → Bool) (s : BotState),
        (∀ pr ∈ s.file_history, pr.2.file_id ≤ s.file_counter) →
        (∀ pr ∈ (processFile cfg file_path file_hash temp_dir content archived
            now pt us sendRes s).1.file_history,
          pr.2.file_id
            ≤ (processFile cfg file_path file_hash temp_dir content archived
                now pt us sendRes s).1.file_counter)
        ∧ (Action.savedHistory
            ∈ (processFile cfg file_path file_hash temp_dir content archived
                now pt us sendRes s).2 →
          ∃ r, dictGet file_path
              (processFile cfg file_path file_hash temp_dir content archived
                now pt us sendRes s).1.file_history = some r
            ∧ r.file_id
                = (processFile cfg file_path file_hash temp_dir content archived
                    now pt us sendRes s).1.file_counter
            ∧ ∀ pr ∈ s.file_history, pr.2.file_id < r.file_id) := by
  constructor
  · intro hist
    constructor
    · intro pr hpr
      exact foldl_max_mem_le hist 0 pr hpr
    · intro hne
      rcases foldl_max_eq_init_or_mem hist 0 with h0 | ⟨pr, hm, he⟩
      · cases hist with
        | nil => exact absurd rfl hne
        | cons hd rest =>
          refine ⟨hd, List.mem_cons_self _ _, ?_⟩
          have hle := foldl_max_mem_le (hd :: rest) 0 hd (List.mem_cons_self _ _)
          unfold initFileCounter
          omega
      · exact ⟨pr, hm, he⟩
  · intro cfg fp fh td content archived now pt us sendRes s hdom
    by_cases h1 : anyHashMatch s.file_history fh = true
    · rw [processFile_dedup_eq cfg fp fh td content archived now pt us sendRes s h1]
      exact ⟨hdom, by intro hmem; simp at hmem⟩
    · have h1' : anyHashMatch s.file_history fh = false := by
        cases hq : anyHashMatch s.file_history fh
        · rfl
        · exact absurd hq h1
      by_cases h2 : extensionBlocked cfg (basename fp) = true
      · rw [processFile_ext_eq cfg fp fh td content archived now pt us sendRes s h1' h2]
        exact ⟨hdom, by intro hmem; simp at hmem⟩
      · have h2' : extensionBlocked cfg (basename fp) = false := by
          cases hq : extensionBlocked cfg (basename fp)
          · rfl
          · exact absurd hq h2
        by_cases h3 : secondaryCheck s.file_history fp fh = true
        · rw [processFile_main_eq cfg fp fh td content archived now pt us sendRes s
            h1' h2' h3]
          by_cases hs : (srOf cfg fp td content archived sendRes).1 = true
          · simp only [finishProcess, hs, if_true]
            constructor
            · intro pr hpr
              rcases mem_dictSet hpr with rfl | hpr
              · exact le_rfl
              · exact le_trans (hdom pr hpr) (by omega)
            · intro _
              refine ⟨_, dictGet_dictSet_self _ _ _, rfl, ?_⟩
              intro pr hpr
              have := hdom pr hpr
              simp only
              omega
          · have hs' : (srOf cfg fp td content archived sendRes).1 = false := by
              cases hq : (srOf cfg fp td content archived sendRes).1
              · rfl
              · exact absurd hq hs
            simp only [finishProcess, hs', Bool.false_eq_true, if_false]
            constructor
            · intro pr hpr
              exact le_trans (hdom pr hpr) (by omega)
            · intro hmem
              exfalso
              simp only [List.mem_append] at hmem
              rcases hmem with (hmem | hmem) | hmem
              · split at hmem
                · simp at hmem
                · simp only [List.mem_singleton] at hmem
                  exact Action.noConfusion hmem
              · exact srOf_not_saved cfg fp td content archived sendRes hmem
              · simp only [List.mem_singleton] at hmem
                exact Action.noConfusion hmem
        · have h3' : secondaryCheck s.file_history fp fh = false := by
            cases hq : secondaryCheck s.file_history fp fh
            · rfl
            · exact absurd hq h3
          rw [processFile_secondary_false_eq cfg fp fh td content archived now pt us
            sendRes s h1' h2' h3']
          refine ⟨hdom, ?_⟩
          intro hmem
          exfalso
          split at hmem
          · simp at hmem
          · simp only [List.mem_singleton] at hmem
            exact Action.noConfusion hmem

/-- Witness for C8: from the fixture state (counter 3, one record with id
3), a successful 3-part delivery creates the record for `"d/f"` with id
7 = 3 + 3 parts + 1, strictly above every pre-existing id. -/
theorem sequenceIdMonotone_witness :
    (∀ pr ∈ sampleState.file_history, pr.2.file_id ≤ initFileCounter sampleState.file_history)
    ∧ ∃ r, dictGet "d/f"
          (processFile sampleCfg "d/f" "h2" "T" [1, 2, 3, 4, 5] [7, 7, 7, 7, 7] "t" 0 0
            (fun _ => true) sampleState).1.file_history = some r
        ∧ r.file_id
            = (processFile sampleCfg "d/f" "h2" "T" [1, 2, 3, 4, 5] [7, 7, 7, 7, 7] "t" 0 0
                (fun _ => true) sampleState).1.file_counter
        ∧ ∀ pr ∈ sampleState.file_history, pr.2.file_id < r.file_id :=
  ⟨(sequenceIdMonotone.1 sampleState.file_history).1,
   (sequenceIdMonotone.2 sampleCfg "d/f" "h2" "T" [1, 2, 3, 4, 5] [7, 7, 7, 7, 7] "t" 0 0
      (fun _ => true) sampleState (by decide)).2 (by decide)⟩

/-- Claim C6, evaluated at its own scenario (a 100 MiB source whose
archive compresses to 60 MiB, part size 45 MiB, `default` compression):
the pipeline does send exactly 2 parts named `movie.mkv.zip.001` and
`movie.mkv.zip.002` of 45 MiB and 15 MiB and exactly one
reassembly-instructions message — but that message tells the user to
concatenate `movie.mkv.zip.zip.*` (the artifact base name with an extra
`.zip` appended by `send_reassembly_instructions`), a pattern that
matches neither part name: the instructions do not reference the part
names, contradicting the claim's final conjunct (and the code's own
stated purpose for the message). -/
theorem reassemblyScenarioMismatch :
    (processFile scenarioCfg "movie.mkv" "h9" "T"
        (List.replicate (100 * 1024 * 1024) 0) (List.replicate (60 * 1024 * 1024) 0)
        "t" 0 0 (fun _ => true) { file_history := [], file_counter := 0 }).2
      = [Action.archiveBuilt "T/movie.mkv.zip",
         Action.sendAttempt "T/movie.mkv.zip.001" (some 1) (some 2),
         Action.sendAttempt "T/movie.mkv.zip.002" (some 2) (some 2),
         Action.reassemblySent (reassemblyInstructions false "movie.mkv.zip" 3),
         Action.savedHistory,
         Action.backendEvent "success" 3]
    ∧ readChunks MAX_FILE_SIZE (List.replicate (60 * 1024 * 1024) 0)
        = [List.replicate (45 * 1024 * 1024) 0, List.replicate (15 * 1024 * 1024) 0]
    ∧ chunkName "movie.mkv.zip" 1 = "movie.mkv.zip.001"
    ∧ chunkName "movie.mkv.zip" 2 = "movie.mkv.zip.002"
    ∧ containsSubstr (reassemblyInstructions false "movie.mkv.zip" 3)
        (reassemblyGlob "movie.mkv.zip") = true
    ∧ reassemblyGlob "movie.mkv.zip" = "movie.mkv.zip.zip.*"
    ∧ globStarMatches (reassemblyGlob "movie.mkv.zip") "movie.mkv.zip.001" = false
    ∧ containsSubstr (reassemblyInstructions false "movie.mkv.zip" 3)
        "movie.mkv.zip.001" = false
    ∧ containsSubstr (reassemblyInstructions false "movie.mkv.zip" 3)
        "movie.mkv.zip.002" = false := by
  have hchunks : readChunks MAX_FILE_SIZE (List.replicate (60 * 1024 * 1024) 0)
      = [List.replicate (45 * 1024 * 1024) 0, List.replicate (15 * 1024 * 1024) 0] := by
    have h60 : (List.replicate (60 * 1024 * 1024) (0 : Nat)) ≠ [] := by
      intro he
      have hl := congrArg List.length he
      rw [List.length_replicate] at hl
      exact absurd hl (by norm_num)
    have h15 : (List.replicate (15 * 1024 * 1024) (0 : Nat)) ≠ [] := by
      intro he
      have hl := congrArg List.length he
      rw [List.length_replicate] at hl
      exact absurd hl (by norm_num)
    rw [readChunks_eq MAX_FILE_SIZE (by norm_num [MAX_FILE_SIZE]) _ h60]
    rw [take_replicate_nat, drop_replicate_nat]
    rw [show min MAX_FILE_SIZE (60 * 1024 * 1024) = 45 * 1024 * 1024 by
      norm_num [MAX_FILE_SIZE]]
    rw [show 60 * 1024 * 1024 - MAX_FILE_SIZE = 15 * 1024 * 1024 by
      norm_num [MAX_FILE_SIZE]]
    rw [readChunks_eq MAX_FILE_SIZE (by norm_num [MAX_FILE_SIZE]) _ h15]
    rw [take_replicate_nat, drop_replicate_nat]
    rw [show min MAX_FILE_SIZE (15 * 1024 * 1024) = 15 * 1024 * 1024 by
      norm_num [MAX_FILE_SIZE]]
    rw [show 15 * 1024 * 1024 - MAX_FILE_SIZE = 0 by norm_num [MAX_FILE_SIZE]]
    rfl
  refine ⟨?_, hchunks, by decide, by decide, by decide, by decide, by decide,
    by decide, by decide⟩
  rw [processFile_main_eq scenarioCfg "movie.mkv" "h9" "T"
    (List.replicate (100 * 1024 * 1024) 0) (List.replicate (60 * 1024 * 1024) 0)
    "t" 0 0 (fun _ => true) { file_history := [], file_counter := 0 }
    rfl (by decide) rfl]
  have hsd : sendDataOf scenarioCfg "movie.mkv"
      (List.replicate (100 * 1024 * 1024) 0) (List.replicate (60 * 1024 * 1024) 0)
      = List.replicate (60 * 1024 * 1024) 0 := by
    rw [sendDataOf, if_neg (by decide)]
  have hsp : sendPathOf scenarioCfg "movie.mkv" "T" = "T/movie.mkv.zip" := by decide
  have hsr : srOf scenarioCfg "movie.mkv" "T"
      (List.replicate (100 * 1024 * 1024) 0) (List.replicate (60 * 1024 * 1024) 0)
      (fun _ => true)
      = (true, (List.replicate (60 * 1024 * 1024) (0 : Nat)).length, 2,
         [Action.sendAttempt "T/movie.mkv.zip.001" (some 1) (some 2),
          Action.sendAttempt "T/movie.mkv.zip.002" (some 2) (some 2),
          Action.reassemblySent (reassemblyInstructions false "movie.mkv.zip" 3)]) := by
    simp only [srOf]
    rw [hsd, hsp]
    rw [if_pos (show (List.replicate (60 * 1024 * 1024) (0 : Nat)).length
        > scenarioCfg.maxFileSize by
      rw [List.length_replicate]
      norm_num [scenarioCfg, MAX_FILE_SIZE])]
    rw [if_pos (show strEndsWith (strLower "T/movie.mkv.zip") ".zip" = true by decide)]
    rw [splitAndSendZip_ok scenarioCfg "T/movie.mkv.zip" "T" true
      (List.replicate (60 * 1024 * 1024) 0) (List.replicate (60 * 1024 * 1024) 0)
      (List.replicate (60 * 1024 * 1024) 0) (fun _ => true)
      (by norm_num [scenarioCfg, MAX_FILE_SIZE])
      (createZipArchive_skip_snd scenarioCfg "T/movie.mkv.zip"
        (basename "T/movie.mkv.zip") "T" (List.replicate (60 * 1024 * 1024) 0)
        (List.replicate (60 * 1024 * 1024) 0))
      (fun i _ _ => rfl)]
    rw [show totalPartsOf (List.replicate (60 * 1024 * 1024) (0 : Nat)).length
        scenarioCfg.maxFileSize = 2 by
      rw [List.length_replicate]
      norm_num [totalPartsOf, scenarioCfg, MAX_FILE_SIZE]]
    rw [show basename "T/movie.mkv.zip" = "movie.mkv.zip" by decide]
    have hacts : (List.range' 1 2).map
        (fun i => Action.sendAttempt ("T" ++ "/" ++ chunkName "movie.mkv.zip" i)
          (some i) (some 2))
        ++ reassemblyActions scenarioCfg "movie.mkv.zip" (2 + 1)
        = [Action.sendAttempt "T/movie.mkv.zip.001" (some 1) (some 2),
           Action.sendAttempt "T/movie.mkv.zip.002" (some 2) (some 2),
           Action.reassemblySent (reassemblyInstructions false "movie.mkv.zip" 3)] := by
      decide
    rw [hacts]
  rw [hsr]
  simp only [finishProcess, if_true]
  rw [if_neg (show ¬passthroughCond scenarioCfg "movie.mkv" = true by decide), hsp]
  decide

end Bot
